import Mathlib

/-
  Shallow embedding of the xlsx-streamer streaming XLSX reader.

  Sources embedded here:
    src/xlsx_streamer/xlsx_generator.py        (StreamingXlsxReader)
    src/xlsx_streamer/xlsx_metadata_extractor.py (XLSXMetadataExtractor)
    src/xlsx_streamer/xlsx_handler.py          (XlsxHandler)
    src/xlsx_streamer/reader.py                (XLSXReader)

  Conventions of the embedding:
  - Python dynamic cell values (str | int | float, and the Boolean case the
    specification mentions) are the inductive PyVal below.  The code never
    constructs a boolean; the constructor exists so that statements about
    Boolean cell values can be written down.
  - Python floats are modelled as exact rationals: every float literal the
    worksheet parser feeds to float() is a short decimal, which the rational
    represents exactly; binary64 rounding is not modelled.
  - Python dicts keyed by column index are association lists in insertion
    order; fallible operations (list item assignment, which can raise
    IndexError) return Option.
  - Character predicates (isalpha, isdigit, whitespace) are modelled on the
    ASCII fragment, which covers every string the claims are about.
-/

namespace XlsxStreamer

/-- Dynamic cell value as produced by the Python code: a string, an int, or a
float; the bool constructor is the Boolean cell value of the specification,
never produced by the code.  Empty is represented as the empty string, exactly
as in the code. -/
inductive PyVal where
  | str (s : String)
  | int (n : Int)
  | float (q : ℚ)
  | bool (b : Bool)
  deriving Repr, DecidableEq

/-- Python whitespace test restricted to ASCII, as used by str.strip and by
int()/float() argument stripping. -/
def isPySpace (c : Char) : Bool :=
  c = ' ' ∨ c = '\t' ∨ c = '\n' ∨ c = '\r' ∨ c = '\x0b' ∨ c = '\x0c'

/-- Strip leading and trailing Python whitespace from a character list. -/
def stripChars (cs : List Char) : List Char :=
  ((cs.dropWhile isPySpace).reverse.dropWhile isPySpace).reverse

/-- Tail of a Python digit run with underscores: after the leading digit, an
underscore must be followed by a digit, and the run must end in a digit. -/
def digitsTail : List Char → Bool
  | [] => true
  | '_' :: rest =>
      match rest with
      | [] => false
      | c :: r2 => c.isDigit && digitsTail r2
  | c :: rest => c.isDigit && digitsTail rest

/-- Python digit run with underscores: nonempty, starts with a digit, every
underscore sits between digits. -/
def digitRun (cs : List Char) : Bool :=
  match cs with
  | [] => false
  | c :: rest => c.isDigit && digitsTail rest

/-- Numeric value of a digit run, ignoring underscores. -/
def digitsVal (cs : List Char) : Nat :=
  (cs.filter (fun c => c ≠ '_')).foldl (fun acc c => acc * 10 + (c.toNat - 48)) 0

/-- Python int() on a string: strip whitespace, optional sign, then a digit
run (underscores allowed between digits); None on anything else.  Models the
int() builtin as called by the worksheet parser (ASCII digits). -/
def pyIntParse (s : String) : Option Int :=
  let cs := stripChars s.toList
  match cs with
  | '+' :: rest => if digitRun rest then some (digitsVal rest) else none
  | '-' :: rest => if digitRun rest then some (-(digitsVal rest : Int)) else none
  | _ => if digitRun cs then some (digitsVal cs) else none

/-- Mantissa of a Python float literal, split at the first dot.  Returns the
exact rational value.  Grammar: digits [. [digits]] or . digits. -/
def floatMantissa (cs : List Char) : Option ℚ :=
  match cs.splitOn '.' with
  | [whole] => if digitRun whole then some (digitsVal whole : ℚ) else none
  | [whole, frac] =>
      let fracLen := (frac.filter (fun c => c ≠ '_')).length
      if whole = [] then
        if digitRun frac then some ((digitsVal frac : ℚ) / (10 : ℚ) ^ fracLen) else none
      else if frac = [] then
        if digitRun whole then some (digitsVal whole : ℚ) else none
      else
        if digitRun whole && digitRun frac then
          some ((digitsVal whole : ℚ) + (digitsVal frac : ℚ) / (10 : ℚ) ^ fracLen)
        else none
  | _ => none

/-- Exponent part of a Python float literal: optional sign then a digit run. -/
def floatExp (cs : List Char) : Option Int :=
  match cs with
  | '+' :: rest => if digitRun rest then some (digitsVal rest) else none
  | '-' :: rest => if digitRun rest then some (-(digitsVal rest : Int)) else none
  | _ => if digitRun cs then some (digitsVal cs) else none

/-- Python float() on a string: strip whitespace, optional sign, mantissa and
optional exponent introduced by e or E.  The inf/nan spellings are omitted:
no spelling of them contains a dot, and the worksheet parser only calls
float() on strings containing a dot.  Exact rational semantics. -/
def pyFloatParse (s : String) : Option ℚ :=
  let cs := stripChars s.toList
  let signed : List Char → Option ℚ := fun body =>
    match body.splitOn 'e' with
    | [mant] =>
        match mant.splitOn 'E' with
        | [m] => floatMantissa m
        | [m, ex] => do
            let q ← floatMantissa m
            let e ← floatExp ex
            pure (q * (10 : ℚ) ^ e)
        | _ => none
    | [mant, ex] =>
        if mant.contains 'E' ∨ ex.contains 'E' then none
        else do
          let q ← floatMantissa mant
          let e ← floatExp ex
          pure (q * (10 : ℚ) ^ e)
    | _ => none
  match cs with
  | '+' :: rest => signed rest
  | '-' :: rest => (signed rest).map (fun q => -q)
  | _ => signed cs

/-- Cell finalization at the end of a v element, xlsx_generator.py lines
101-142.  cellType is the t attribute of the enclosing c element, pool the
shared-string list, raw the joined collected text.
  - t = s: int(raw); on ValueError the index is set to -1; an index in
    [0, len pool) selects the pool entry, anything else yields the empty
    string (lines 109-122);
  - otherwise, a nonempty raw string is converted: float() if it contains a
    dot else int(), and on ValueError the string is kept (lines 124-137);
  - an empty raw string is kept as the empty string (the conversion guard
    cell_value and isinstance(cell_value, str) is false). -/
def finalizeV (cellType : Option String) (pool : List String) (raw : String) : PyVal :=
  if cellType = some "s" then
    let idx : Int := (pyIntParse raw).getD (-1)
    if h : 0 ≤ idx ∧ idx < pool.length then
      PyVal.str (pool.get ⟨idx.toNat, by omega⟩)
    else
      PyVal.str ""
  else if raw ≠ "" then
    if raw.toList.contains '.' then
      match pyFloatParse raw with
      | some q => PyVal.float q
      | none => PyVal.str raw
    else
      match pyIntParse raw with
      | some n => PyVal.int n
      | none => PyVal.str raw
  else
    PyVal.str ""

/-- Column index of an Excel cell address, xlsx_generator.py lines 229-235:
uppercase the address, keep the alphabetic characters, fold base 26 with
A = 1, subtract one.  An address with no alphabetic character yields -1. -/
def address_to_index (address : String) : Int :=
  let colPart := ((address.toList.map Char.toUpper).filter Char.isAlpha)
  (colPart.foldl (fun ix c => ix * 26 + ((c.toNat : Int) - 64)) 0) - 1

/-- Effective position of Python index i into a list of length n: a negative
index counts from the end. -/
def pyIndex (i : Int) (n : Nat) : Int :=
  if i < 0 then i + n else i

/-- Python list item assignment l[i] = v: a negative index counts from the
end; an index outside [-len, len) raises IndexError, modelled as none. -/
def pySetItem (l : List PyVal) (i : Int) (v : PyVal) : Option (List PyVal) :=
  if 0 ≤ pyIndex i l.length ∧ pyIndex i l.length < l.length then
    some (l.set (pyIndex i l.length).toNat v)
  else none

/-- Fill loop of _sparse_to_dense_row, xlsx_generator.py lines 225-226:
assign each sparse entry into the dense list in insertion order. -/
def fillDense (entries : List (Int × PyVal)) (l : List PyVal) : Option (List PyVal) :=
  match entries with
  | [] => some l
  | (k, v) :: rest =>
      match pySetItem l k v with
      | none => none
      | some l2 => fillDense rest l2

/-- Sparse-to-dense row expansion, xlsx_generator.py lines 203-227: an empty
dict returns []; otherwise a list of length max(keys)+1 filled with empty
strings receives the entries.  The Python dict is an insertion-ordered
association list here; none models an IndexError escaping the method. -/
def sparse_to_dense_row (sparse : List (Int × PyVal)) : Option (List PyVal) :=
  match sparse with
  | [] => some []
  | (k0, _) :: rest =>
      let maxCol := (rest.map Prod.fst).foldl max k0
      let dense := List.replicate (maxCol + 1).toNat (PyVal.str "")
      fillDense sparse dense

/-- Row emission at the end of a row element, xlsx_generator.py lines
161-166: a nonempty current_row yields its dense expansion, an empty one
yields nothing. -/
def emitRow (sparse : List (Int × PyVal)) : Option (List (List PyVal)) :=
  match sparse with
  | [] => some []
  | _ => (sparse_to_dense_row sparse).map (fun d => [d])

/-- Python str.lstrip(chars): remove every leading character that belongs to
the character set chars. -/
def pyLstrip (s : String) (chars : String) : String :=
  String.mk (s.toList.dropWhile (fun c => chars.toList.contains c))

/-- Worksheet target path normalization, xlsx_metadata_extractor.py lines
203-204: relative_path.lstrip("/").lstrip("xl/") then prepended with xl/.
Note both lstrip calls strip character sets, not string prefixes. -/
def normalizeTarget (target : String) : String :=
  "xl/" ++ pyLstrip (pyLstrip target "/") "xl/"

/-- Modelled from the spec sentence of C4 for comparison: strip one leading
slash, strip one leading duplicated xl/ segment, then prepend xl/. -/
def specNormalizeTarget (target : String) : String :=
  let l1 := if ['/'].isPrefixOf target.toList then target.toList.drop 1 else target.toList
  let l2 := if ['x', 'l', '/'].isPrefixOf l1 then l1.drop 3 else l1
  "xl/" ++ String.mk l2

/-- A sheet element of xl/workbook.xml: the name attribute and the optional
r:id attribute (Element.get returns None when the attribute is absent). -/
structure WorkbookSheet where
  name : String
  rid : Option String
  deriving Repr, DecidableEq

/-- Parsed content of the metadata parts of an archive, as seen by
XLSXMetadataExtractor.extract_metadata after the single ZIP pass: none for a
workbook or rels part that is absent or fails to parse, the relationship list
as pairs (Id, Target), and the shared-string pool. -/
structure Archive where
  workbook : Option (List WorkbookSheet)
  rels : Option (List (String × String))
  sharedStrings : List String

/-- Sheet lookup of _parse_workbook_xml, xlsx_metadata_extractor.py lines
50-77: the r:id attribute of the first sheet element whose name attribute
equals the requested name; None when no sheet matches, the attribute is
absent, or the workbook part is missing or unparsable. -/
def parse_workbook_xml (wb : Option (List WorkbookSheet)) (sheetName : String) :
    Option String :=
  match wb with
  | none => none
  | some sheets =>
      match sheets.find? (fun s => s.name = sheetName) with
      | none => none
      | some s => s.rid

/-- Relationship lookup of _parse_rels_xml, xlsx_metadata_extractor.py lines
79-103: the Target of the Relationship whose Id matches; an empty Target is
returned as None (return target if target else None). -/
def parse_rels_xml (rels : Option (List (String × String))) (rid : String) :
    Option String :=
  match rels with
  | none => none
  | some l =>
      match l.find? (fun p => p.1 = rid) with
      | none => none
      | some p => if p.2 = "" then none else some p.2

/-- Error raised by extract_metadata: the ValueError of line 207, the
SheetNotFound of the specification taxonomy. -/
inductive MetaError where
  | sheetNotFound (name : String)
  deriving Repr, DecidableEq

/-- Metadata resolution of extract_metadata, xlsx_metadata_extractor.py lines
140-209: with no sheet name (None or empty, the falsy test of line 189) the
default worksheet path is returned; otherwise the name is resolved through
the workbook (truthy r_id required, line 197) and the relationships part, the
target is normalized, and failure of any step raises the ValueError. -/
def extract_metadata (a : Archive) (sheetName : Option String) :
    Except MetaError (List String × String) :=
  match sheetName with
  | none => Except.ok (a.sharedStrings, "xl/worksheets/sheet1.xml")
  | some nm =>
      if nm = "" then Except.ok (a.sharedStrings, "xl/worksheets/sheet1.xml")
      else
        match parse_workbook_xml a.workbook nm with
        | none => Except.error (MetaError.sheetNotFound nm)
        | some rid =>
            if rid = "" then Except.error (MetaError.sheetNotFound nm)
            else
              match parse_rels_xml a.rels rid with
              | none => Except.error (MetaError.sheetNotFound nm)
              | some target => Except.ok (a.sharedStrings, normalizeTarget target)

/-- ElementTree element: raw tag (with any namespace in braces), the text
before the first child (Element.text, None when absent), and the children. -/
inductive XML where
  | elem (tag : String) (text : Option String) (children : List XML)

/-- Raw tag of an element. -/
def XML.tag : XML → String
  | .elem t _ _ => t

/-- Text of an element (Element.text). -/
def XML.text : XML → Option String
  | .elem _ x _ => x

mutual
/-- Element.iter(): the element itself followed by all descendants in
document (preorder) order. -/
def iterElems : XML → List XML
  | .elem t x cs => .elem t x cs :: iterElemsList cs

/-- Element.iter() concatenated over a list of siblings. -/
def iterElemsList : List XML → List XML
  | [] => []
  | c :: rest => iterElems c ++ iterElemsList rest
end

/-- Python str.endswith(suffix), as a list suffix test. -/
def strEndsWith (s suffix : String) : Bool :=
  suffix.toList.isSuffixOf s.toList

/-- Text selected from one element by the comprehension of
_parse_shared_strings_xml line 128-132: the text when the raw tag ends with
the letter t and the text is truthy, nothing otherwise. -/
def siPick (e : XML) : Option String :=
  match e.text with
  | some s => if strEndsWith e.tag "t" && s ≠ "" then some s else none
  | none => none

/-- Pool entry built for one si element by _parse_shared_strings_xml,
xlsx_metadata_extractor.py lines 128-133: join the text of every element in
elem.iter() whose raw tag ends with the letter t and whose text is truthy. -/
def siEntry (si : XML) : String :=
  String.join ((iterElems si).filterMap siPick)

/-- Local name of a tag: the part after the closing namespace brace, as in
elem.tag.split on the closing brace taking the last piece. -/
def localName (tag : String) : String :=
  match (tag.toList.splitOn (Char.ofNat 125)).getLast? with
  | some t => String.mk t
  | none => tag

/-- Text selected from one element by the spec sentence of C7: the text of a
t element (empty when absent), nothing for any other tag. -/
def specSiPick (e : XML) : Option String :=
  if localName e.tag = "t" then some (e.text.getD "") else none

/-- Modelled from the spec sentence of C7 for comparison: the concatenation,
in document order, of the text of all descendant t elements of the si
element. -/
def siEntrySpec (si : XML) : String :=
  String.join ((iterElems si).filterMap specSiPick)

/-- Body chunk of a ZIP part as seen by a streaming XML consumer: wf for a
chunk the parser accepts, bad for a chunk on which parser.feed raises
ParseError. -/
inductive Chunk where
  | wf
  | bad
  deriving Repr, DecidableEq

/-- Number of body chunks _parse_shared_strings_xml consumes from the part
iterator, xlsx_metadata_extractor.py lines 113-136: the for loop pulls chunks
until exhaustion, but a ParseError raised while feeding a chunk is caught by
the handler of line 135, which returns at once and leaves the remaining
chunks unconsumed. -/
def sharedStringsConsumed : List Chunk → Nat
  | [] => 0
  | Chunk.wf :: rest => 1 + sharedStringsConsumed rest
  | Chunk.bad :: _ => 1

/-- Number of body chunks the explicit drain loop consumes (for _ in chunks:
pass, xlsx_metadata_extractor.py lines 183-184 and xlsx_generator.py lines
197-198): always every chunk. -/
def drainConsumed (chunks : List Chunk) : Nat :=
  chunks.length

/-- Number of body chunks list.extend consumes (workbook_chunks.extend and
rels_chunks.extend, xlsx_metadata_extractor.py lines 178-180): always every
chunk. -/
def extendConsumed (chunks : List Chunk) : Nat :=
  chunks.length

/-- Decimal digits of the fractional part r/d, with fuel; exact whenever d
divides a power of ten, which holds for every float the parsers above
produce from worksheet literals. -/
def fracDigits : Nat → Nat → Nat → List Char
  | 0, _, _ => []
  | _ + 1, 0, _ => []
  | fuel + 1, r, d =>
      let r10 := r * 10
      Char.ofNat (48 + r10 / d) :: fracDigits fuel (r10 % d) d

/-- Repr of a nonnegative rational float value: integer part, a dot, then the
fractional digits, with .0 when the value is integral, as Python str() prints
floats whose shortest form is a plain decimal. -/
def floatReprNN (q : ℚ) : String :=
  let n := q.num.toNat
  let d := q.den
  let ip := n / d
  let r := n % d
  if r = 0 then toString ip ++ ".0"
  else toString ip ++ "." ++ String.mk (fracDigits 30 r d)

/-- Repr of a float value, sign included. -/
def floatRepr (q : ℚ) : String :=
  if q < 0 then "-" ++ floatReprNN (-q) else floatReprNN q

/-- Python str() on a cell value, as applied by _row_to_bytes line 58 (no
cell value is None in this pipeline, so the None-to-empty branch is the
identity embedding of strings). -/
def pyStr (v : PyVal) : String :=
  match v with
  | PyVal.str s => s
  | PyVal.int n => toString n
  | PyVal.float q => floatRepr q
  | PyVal.bool b => if b then "True" else "False"

/-- QUOTE_MINIMAL test of csv.writer: a field is quoted iff it contains the
delimiter, the quote character, or a character of the line terminator. -/
def needsQuote (f : String) : Bool :=
  f.toList.any (fun c => c = ',' ∨ c = '"' ∨ c = '\n' ∨ c = '\r')

/-- Quote a CSV field: embedded quote characters are doubled. -/
def quoteField (f : String) : String :=
  "\"" ++ String.mk (f.toList.flatMap (fun c => if c = '"' then ['"', '"'] else [c])) ++ "\""

/-- Serialize one CSV field with minimal quoting. -/
def csvField (f : String) : String :=
  if needsQuote f then quoteField f else f

/-- Join CSV fields with the comma delimiter. -/
def joinFields : List String → String
  | [] => ""
  | [f] => f
  | f :: rest => f ++ "," ++ joinFields rest

/-- Fields of one record as csv.writer emits them under QUOTE_MINIMAL: each
field quoted when it contains a special character, and additionally a lone
empty field is quoted (writerow of a single empty string emits a pair of
quote characters, so the record is not written as an empty line). -/
def csvRecordFields (values : List String) : List String :=
  match values with
  | [f] => if f = "" then [quoteField f] else [csvField f]
  | _ => values.map csvField

/-- XlsxHandler._row_to_bytes, xlsx_handler.py lines 48-65: str() each value,
join with the comma delimiter under minimal quoting (including the
lone-empty-field quoting of csv.writer), terminate with CRLF.  The utf-8
encode/decode round trip is the identity here. -/
def row_to_bytes (row : List PyVal) : String :=
  joinFields (csvRecordFields (row.map (fun v => pyStr v))) ++ "\r\n"

/-- Python str.strip() with no argument: remove leading and trailing
whitespace. -/
def pyStrip (s : String) : String :=
  String.mk (stripChars s.toList)

/-- One-record CSV parse, as csv.reader produces it for the first record of
the stripped row string, reader.py lines 147-148: fields split on unquoted
commas, a quote at field start opens a quoted field, doubled quotes inside a
quoted field are literal, an unquoted CR or LF ends the record. -/
def csvParseAux : List Char → Bool → List Char → List String → List String
  | [], _, cur, acc => acc ++ [String.mk cur.reverse]
  | '"' :: '"' :: rest, true, cur, acc => csvParseAux rest true ('"' :: cur) acc
  | '"' :: rest, true, cur, acc => csvParseAux rest false cur acc
  | c :: rest, true, cur, acc => csvParseAux rest true (c :: cur) acc
  | ',' :: rest, false, cur, acc => csvParseAux rest false [] (acc ++ [String.mk cur.reverse])
  | '"' :: rest, false, [], acc => csvParseAux rest true [] acc
  | '\r' :: _, false, cur, acc => acc ++ [String.mk cur.reverse]
  | '\n' :: _, false, cur, acc => acc ++ [String.mk cur.reverse]
  | c :: rest, false, cur, acc => csvParseAux rest false (c :: cur) acc

/-- Parse the first CSV record of a string. -/
def csvParseRecord (s : String) : List String :=
  csvParseAux s.toList false [] []

/-- XLSXReader.stream_rows, reader.py lines 143-149, composed with the
handler serialization: each row is serialized by _row_to_bytes, decoded and
stripped; a row whose stripped serialization is empty is skipped, every other
row is re-parsed by csv.reader and yielded. -/
def reader_stream_rows (rows : List (List PyVal)) : List (List String) :=
  rows.flatMap (fun r =>
    let t := pyStrip (row_to_bytes r)
    if t = "" then [] else [csvParseRecord t])

/-
  Theorems.  Claim identifiers refer to CLAIMS.json of this verification
  development.
-/

/-- Claim C1, counterexample: a cell with no type attribute whose collected
text is 1e3 is retained as the Text value 1e3 (int() fails and the dot test
fails), not parsed as the Float 1000 the claim asserts. -/
theorem c1_numeric_inference_counterexample :
    finalizeV none [] "1e3" = PyVal.str "1e3" ∧
    PyVal.str "1e3" ≠ PyVal.float 1000 := by
  constructor
  · rfl
  · decide

/-- Claim C1 as amended: for a cell whose type attribute is absent or n, a
nonempty collected value containing a dot is parsed by float(), a nonempty
value without a dot is parsed by int(), parse failure retains the Text, and
the empty value stays Empty; hence 42 yields Integer 42, 3.14 yields Float
3.14, 1e3 is retained as Text (int() rejects it and float() is never tried),
#N/A is retained as Text, and the empty string yields Empty. -/
theorem c1_numeric_inference_amended :
    finalizeV none [] "42" = PyVal.int 42 ∧
    finalizeV none [] "3.14" = PyVal.float (157 / 50) ∧
    finalizeV none [] "1e3" = PyVal.str "1e3" ∧
    finalizeV none [] "#N/A" = PyVal.str "#N/A" ∧
    finalizeV none [] "" = PyVal.str "" ∧
    (∀ (t : Option String) (pool : List String) (s : String) (n : Int),
      (t = none ∨ t = some "n") → s ≠ "" → s.toList.contains '.' = false →
      pyIntParse s = some n → finalizeV t pool s = PyVal.int n) ∧
    (∀ (t : Option String) (pool : List String) (s : String),
      (t = none ∨ t = some "n") → s ≠ "" → s.toList.contains '.' = false →
      pyIntParse s = none → finalizeV t pool s = PyVal.str s) ∧
    (∀ (t : Option String) (pool : List String) (s : String) (q : ℚ),
      (t = none ∨ t = some "n") → s ≠ "" → s.toList.contains '.' = true →
      pyFloatParse s = some q → finalizeV t pool s = PyVal.float q) ∧
    (∀ (t : Option String) (pool : List String) (s : String),
      (t = none ∨ t = some "n") → s ≠ "" → s.toList.contains '.' = true →
      pyFloatParse s = none → finalizeV t pool s = PyVal.str s) := by
  have hflt314 : finalizeV none [] "3.14" = PyVal.float (157 / 50) := by
    have h : finalizeV none [] "3.14" =
        PyVal.float ((3 : ℚ) + (14 : ℚ) / (10 : ℚ) ^ (2 : ℕ)) := rfl
    rw [h]
    congr 1
    norm_num
  refine ⟨by decide, hflt314, by decide, by decide, by decide, ?_, ?_, ?_, ?_⟩
  · rintro t pool s n (rfl | rfl) hne hdot hint <;>
      (simp at hdot; simp [finalizeV, hne, hdot, hint])
  · rintro t pool s (rfl | rfl) hne hdot hint <;>
      (simp at hdot; simp [finalizeV, hne, hdot, hint])
  · rintro t pool s q (rfl | rfl) hne hdot hflt <;>
      (simp at hdot; simp [finalizeV, hne, hdot, hflt])
  · rintro t pool s (rfl | rfl) hne hdot hflt <;>
      (simp at hdot; simp [finalizeV, hne, hdot, hflt])

/-- Claim C1 witness: the Integer conjunct of the amended claim applied at
the value 7. -/
theorem c1_numeric_inference_witness :
    pyIntParse "7" = some 7 ∧ finalizeV none [] "7" = PyVal.int 7 :=
  ⟨by decide,
   c1_numeric_inference_amended.2.2.2.2.2.1 none [] "7" 7 (Or.inl rfl) (by decide)
     (by decide) (by decide)⟩

/-- Claim C5, counterexample: a cell typed b with collected value 1
finalizes to the Integer 1 (the worksheet parser has no boolean branch and
falls through to numeric conversion), not to Boolean true. -/
theorem c5_bool_cells_counterexample :
    finalizeV (some "b") [] "1" = PyVal.int 1 ∧ PyVal.int 1 ≠ PyVal.bool true := by
  decide

/-- Claim C5 as amended: cells typed b are finalized exactly like untyped
cells, through numeric conversion: 1 yields Integer 1, 0 yields Integer 0,
and a nonempty dot-free value int() rejects is retained as Text.  No cell
ever finalizes to a Boolean. -/
theorem c5_bool_cells_amended :
    (∀ (pool : List String) (s : String),
      finalizeV (some "b") pool s = finalizeV none pool s) ∧
    finalizeV (some "b") [] "1" = PyVal.int 1 ∧
    finalizeV (some "b") [] "0" = PyVal.int 0 ∧
    (∀ (pool : List String) (s : String), s ≠ "" → s.toList.contains '.' = false →
      pyIntParse s = none → finalizeV (some "b") pool s = PyVal.str s) := by
  refine ⟨?_, by decide, by decide, ?_⟩
  · intro pool s
    simp [finalizeV]
  · intro pool s hne hdot hint
    simp at hdot
    simp [finalizeV, hne, hdot, hint]

/-- Claim C5 witness: the Text conjunct of the amended claim applied at the
value TRUE. -/
theorem c5_bool_cells_witness :
    pyIntParse "TRUE" = none ∧ finalizeV (some "b") [] "TRUE" = PyVal.str "TRUE" :=
  ⟨by decide, c5_bool_cells_amended.2.2.2 [] "TRUE" (by decide) (by decide) (by decide)⟩

/-- Claim C6: for a cell typed s, the collected text is parsed by int(); an
in-range index selects the pool entry, an out-of-range index (negative
included) yields the Empty value, and text int() rejects yields the Empty
value; every case returns a value, so the row stream never aborts on a bad
shared-string reference. -/
theorem c6_shared_string_lookup :
    (∀ (pool : List String) (raw : String) (i : Int),
      pyIntParse raw = some i → 0 ≤ i → ∀ h : i.toNat < pool.length,
      finalizeV (some "s") pool raw = PyVal.str (pool.get ⟨i.toNat, h⟩)) ∧
    (∀ (pool : List String) (raw : String) (i : Int),
      pyIntParse raw = some i → ¬(0 ≤ i ∧ i < (pool.length : Int)) →
      finalizeV (some "s") pool raw = PyVal.str "") ∧
    (∀ (pool : List String) (raw : String),
      pyIntParse raw = none → finalizeV (some "s") pool raw = PyVal.str "") := by
  refine ⟨?_, ?_, ?_⟩
  · intro pool raw i hi h0 h
    have hlt : i < (pool.length : Int) := by omega
    unfold finalizeV
    rw [if_pos rfl]
    simp only [hi, Option.getD_some]
    rw [dif_pos ⟨h0, hlt⟩]
  · intro pool raw i hi hni
    unfold finalizeV
    rw [if_pos rfl]
    simp only [hi, Option.getD_some]
    rw [dif_neg hni]
  · intro pool raw hi
    unfold finalizeV
    rw [if_pos rfl]
    simp only [hi, Option.getD_none]
    rw [dif_neg (by omega)]

/-- Claim C6 witness: the in-range conjunct applied at index 1 of a
two-entry pool. -/
theorem c6_shared_string_lookup_witness :
    pyIntParse "1" = some 1 ∧ (0 : Int) ≤ 1 ∧
    finalizeV (some "s") ["a", "b"] "1" = PyVal.str "b" :=
  ⟨by decide, by decide,
   c6_shared_string_lookup.1 ["a", "b"] "1" 1 (by decide) (by decide) (by decide)⟩

/-- Claim C2: requesting no sheet name (or the falsy empty name) yields the
default path xl/worksheets/sheet1.xml whatever the archive holds; requesting
a name the workbook resolves to a truthy relationship id that the
relationships part maps to a target yields that target normalized; and
requesting a name that matches no sheet of the workbook part fails with the
SheetNotFound error. -/
theorem c2_sheet_selection :
    (∀ a : Archive,
      extract_metadata a none = Except.ok (a.sharedStrings, "xl/worksheets/sheet1.xml")) ∧
    (∀ (a : Archive) (nm rid target : String),
      nm ≠ "" → parse_workbook_xml a.workbook nm = some rid → rid ≠ "" →
      parse_rels_xml a.rels rid = some target →
      extract_metadata a (some nm) = Except.ok (a.sharedStrings, normalizeTarget target)) ∧
    (∀ (a : Archive) (nm : String) (sheets : List WorkbookSheet),
      nm ≠ "" → a.workbook = some sheets → (∀ s ∈ sheets, s.name ≠ nm) →
      extract_metadata a (some nm) = Except.error (MetaError.sheetNotFound nm)) := by
  refine ⟨fun a => rfl, ?_, ?_⟩
  · intro a nm rid target hnm hwb hrid hrel
    simp [extract_metadata, hnm, hwb, hrid, hrel]
  · intro a nm sheets hnm hwb hall
    have hfind : sheets.find? (fun s => s.name = nm) = none := by
      rw [List.find?_eq_none]
      intro s hs
      simp [hall s hs]
    have hnone : parse_workbook_xml a.workbook nm = none := by
      simp [parse_workbook_xml, hwb, hfind]
    simp [extract_metadata, hnm, hnone]

/-- Claim C2 witness: the three conjuncts applied to a concrete two-sheet
archive. -/
theorem c2_sheet_selection_witness :
    extract_metadata
        ⟨some [⟨"Sheet1", some "rId1"⟩, ⟨"Sheet2", some "rId2"⟩],
         some [("rId1", "worksheets/sheet1.xml"), ("rId2", "worksheets/sheet2.xml")],
         ["p"]⟩ (some "Sheet2") =
      Except.ok (["p"], "xl/worksheets/sheet2.xml") ∧
    extract_metadata
        ⟨some [⟨"Sheet1", some "rId1"⟩], some [("rId1", "worksheets/sheet1.xml")], []⟩
        (some "Nope") =
      Except.error (MetaError.sheetNotFound "Nope") := by
  constructor
  · have h := c2_sheet_selection.2.1
      ⟨some [⟨"Sheet1", some "rId1"⟩, ⟨"Sheet2", some "rId2"⟩],
       some [("rId1", "worksheets/sheet1.xml"), ("rId2", "worksheets/sheet2.xml")],
       ["p"]⟩ "Sheet2" "rId2" "worksheets/sheet2.xml" (by decide) (by decide) (by decide)
      (by decide)
    exact h
  · exact c2_sheet_selection.2.2
      ⟨some [⟨"Sheet1", some "rId1"⟩], some [("rId1", "worksheets/sheet1.xml")], []⟩
      "Nope" [⟨"Sheet1", some "rId1"⟩] (by decide) rfl (by decide)

/-- Claim C8: the explicit drain loop and list.extend consume every chunk of
a skipped part, and the shared-strings handler consumes every chunk when no
chunk raises a ParseError; but on the part body [bad, wf] the handler stops
after 1 of 2 chunks, because the except handler of line 135 returns early
with the iterator not drained, violating the full-consumption protocol the
claim states.  This exhibits the code bug at that failing input. -/
theorem c8_drain_protocol :
    sharedStringsConsumed [Chunk.bad, Chunk.wf] = 1 ∧
    ([Chunk.bad, Chunk.wf] : List Chunk).length = 2 ∧
    (∀ chunks : List Chunk, Chunk.bad ∉ chunks →
      sharedStringsConsumed chunks = chunks.length) ∧
    (∀ chunks : List Chunk, drainConsumed chunks = chunks.length ∧
      extendConsumed chunks = chunks.length) := by
  refine ⟨rfl, rfl, ?_, fun chunks => ⟨rfl, rfl⟩⟩
  intro chunks hb
  induction chunks with
  | nil => rfl
  | cons c rest ih =>
      cases c with
      | wf =>
          have hrest : Chunk.bad ∉ rest := fun h => hb (List.mem_cons_of_mem _ h)
          simp [sharedStringsConsumed, ih hrest, Nat.add_comm]
      | bad => exact absurd (List.mem_cons_self _ _) hb

/-- Claim C8 witness: the no-ParseError conjunct applied to a two-chunk
well-formed body. -/
theorem c8_drain_protocol_witness :
    Chunk.bad ∉ [Chunk.wf, Chunk.wf] ∧
    sharedStringsConsumed [Chunk.wf, Chunk.wf] = [Chunk.wf, Chunk.wf].length :=
  ⟨by decide, c8_drain_protocol.2.2.1 [Chunk.wf, Chunk.wf] (by decide)⟩

/-- Claim C9, counterexample: csv.writer quotes a lone empty field, so the
single-Empty row serializes to a pair of quote characters before the CRLF,
strips to a nonempty string, and is yielded as a one-field row instead of
being omitted as the claim states. -/
theorem c9_public_row_filter_counterexample :
    row_to_bytes [PyVal.str ""] = "\"\"\r\n" ∧
    pyStrip (row_to_bytes [PyVal.str ""]) = "\"\"" ∧
    reader_stream_rows [[PyVal.str ""]] = [[""]] ∧
    reader_stream_rows [[PyVal.str ""]] ≠ [] := by
  refine ⟨by decide, by decide, by decide, by decide⟩

/-- Claim C9 as amended: the public stream_rows yields exactly the rows
whose CSV serialization, stripped of the line terminator and surrounding
whitespace, is nonempty, each re-parsed by the CSV reader; because
csv.writer quotes a lone empty field, the single-Empty row serializes to a
quoted empty field, passes the filter and is yielded as a one-field row,
and the two-column all-Empty row (a lone comma) is yielded as well. -/
theorem c9_public_row_filter_amended :
    (∀ rows : List (List PyVal),
      reader_stream_rows rows =
        (rows.filter (fun r => pyStrip (row_to_bytes r) ≠ "")).map
          (fun r => csvParseRecord (pyStrip (row_to_bytes r)))) ∧
    reader_stream_rows [[PyVal.str ""]] = [[""]] ∧
    reader_stream_rows [[PyVal.str "", PyVal.str ""]] = [["", ""]] := by
  refine ⟨?_, by decide, by decide⟩
  intro rows
  induction rows with
  | nil => rfl
  | cons r rows ih =>
      by_cases h : pyStrip (row_to_bytes r) = "" <;>
        simp [reader_stream_rows, List.filter_cons, h] at ih ⊢ <;>
        exact ih

/-- Helper: dropping with a weaker predicate absorbs a preceding drop with a
stronger one. -/
theorem dropWhile_dropWhile_of_imp {α : Type} (p q : α → Bool)
    (hpq : ∀ c, p c = true → q c = true) (l : List α) :
    (l.dropWhile p).dropWhile q = l.dropWhile q := by
  induction l with
  | nil => rfl
  | cons c rest ih =>
      by_cases hp : p c = true
      · rw [List.dropWhile_cons, if_pos hp, ih, List.dropWhile_cons, if_pos (hpq c hp)]
      · rw [List.dropWhile_cons, if_neg (by simp_all)]

/-- Claim C4, counterexample: the code strips the character set x, l, / from
the front of the Target, not the slash and a duplicated xl/ segment: the
Target lists/sheet.xml normalizes to xl/ists/sheet.xml, while the rule the
claim states would produce xl/lists/sheet.xml. -/
theorem c4_target_normalization_counterexample :
    normalizeTarget "lists/sheet.xml" = "xl/ists/sheet.xml" ∧
    specNormalizeTarget "lists/sheet.xml" = "xl/lists/sheet.xml" ∧
    normalizeTarget "lists/sheet.xml" ≠ specNormalizeTarget "lists/sheet.xml" := by
  decide

/-- Claim C4 as amended: the part path is produced by removing every leading
character belonging to the set containing x, l and the slash, then
prepending xl/; the two example Targets still both normalize to
xl/worksheets/sheet3.xml. -/
theorem c4_target_normalization_amended :
    normalizeTarget "worksheets/sheet3.xml" = "xl/worksheets/sheet3.xml" ∧
    normalizeTarget "/xl/worksheets/sheet3.xml" = "xl/worksheets/sheet3.xml" ∧
    ∀ target : String, normalizeTarget target =
      "xl/" ++ String.mk (target.toList.dropWhile
        (fun c => c = 'x' ∨ c = 'l' ∨ c = '/')) := by
  refine ⟨by decide, by decide, ?_⟩
  intro target
  unfold normalizeTarget pyLstrip
  dsimp only [String.toList]
  rw [dropWhile_dropWhile_of_imp (fun c => ("/" : String).data.contains c)
    (fun c => ("xl/" : String).data.contains c) ?_ target.data]
  · have hfun : (fun c => ("xl/" : String).data.contains c) =
        (fun c : Char => decide (c = 'x' ∨ c = 'l' ∨ c = '/')) := by
      funext c
      have hd : ("xl/" : String).data = ['x', 'l', '/'] := rfl
      rw [hd]
      simp [decide_eq_decide]
    rw [hfun]
  · intro c hc
    have hd1 : ("/" : String).data = ['/'] := rfl
    have hd2 : ("xl/" : String).data = ['x', 'l', '/'] := rfl
    rw [hd1] at hc
    rw [hd2]
    simp at hc
    simp [hc]

/-- Helper: String.join of a cons. -/
theorem join_cons_eq (s : String) (l : List String) :
    String.join (s :: l) = s ++ String.join l := by
  simp [String.join]
  induction l generalizing s with
  | nil => simp
  | cons a l ih => simp [List.foldl_cons, ih (s ++ a), ih a, String.append_assoc]

/-- Helper for C7: over any element list, the join of the texts picked by
the tag-ends-with-t test of the code equals the join of the texts of the
t elements, provided the two tag tests agree on every element of the list. -/
theorem siEntry_join_congr (L : List XML)
    (H : ∀ e ∈ L, (strEndsWith e.tag "t" = true ↔ localName e.tag = "t")) :
    String.join (L.filterMap siPick) = String.join (L.filterMap specSiPick) := by
  induction L with
  | nil => rfl
  | cons e L ih =>
      have He := H e (List.mem_cons_self e L)
      have HL : ∀ x ∈ L, (strEndsWith x.tag "t" = true ↔ localName x.tag = "t") :=
        fun x hx => H x (List.mem_cons_of_mem e hx)
      have htail := ih HL
      rw [List.filterMap_cons, List.filterMap_cons]
      by_cases he : strEndsWith e.tag "t" = true
      · have hln : localName e.tag = "t" := He.mp he
        cases ht : e.text with
        | none =>
            have h1 : siPick e = none := by simp [siPick, ht]
            have h2 : specSiPick e = some "" := by simp [specSiPick, hln, ht]
            rw [h1, h2, join_cons_eq]
            exact htail
        | some str =>
            by_cases hs : str = ""
            · have h1 : siPick e = none := by simp [siPick, ht, hs]
              have h2 : specSiPick e = some "" := by simp [specSiPick, hln, ht, hs]
              rw [h1, h2, join_cons_eq]
              exact htail
            · have h1 : siPick e = some str := by simp [siPick, ht, he, hs]
              have h2 : specSiPick e = some str := by simp [specSiPick, hln, ht]
              rw [h1, h2, join_cons_eq, join_cons_eq, htail]
      · have hln : ¬ localName e.tag = "t" := fun hl => he (He.mpr hl)
        have h1 : siPick e = none := by
          cases ht : e.text with
          | none => simp [siPick, ht]
          | some str => simp [siPick, ht, he]
        have h2 : specSiPick e = none := by simp [specSiPick, hln]
        rw [h1, h2]
        exact htail

/-- Claim C7, counterexample: the code matches any tag that merely ends with
the letter t: an si element containing a tt element with text x yields the
pool entry x, while the concatenation over the actual t descendants the
claim states is empty. -/
theorem c7_si_concat_counterexample :
    siEntry (XML.elem "si" none [XML.elem "tt" (some "x") []]) = "x" ∧
    siEntrySpec (XML.elem "si" none [XML.elem "tt" (some "x") []]) = "" ∧
    ("x" : String) ≠ "" := by
  refine ⟨by decide, by decide, by decide⟩

/-- Claim C7 as amended: the pool entry of an si element is the
concatenation, in document order, of the text of every contained element
whose tag ends with the letter t; whenever the tags ending in t are exactly
the t elements (as in standard shared-strings parts) this coincides with the
concatenation the claim states, and the rich-text example yields BoldNormal. -/
theorem c7_si_concat_amended :
    siEntry (XML.elem "si" none
      [XML.elem "r" none [XML.elem "t" (some "Bold") []],
       XML.elem "r" none [XML.elem "t" (some "Normal") []]]) = "BoldNormal" ∧
    ∀ si : XML,
      (∀ e ∈ iterElems si, (strEndsWith e.tag "t" = true ↔ localName e.tag = "t")) →
      siEntry si = siEntrySpec si := by
  refine ⟨by decide, ?_⟩
  intro si H
  unfold siEntry siEntrySpec
  exact siEntry_join_congr (iterElems si) H

/-- Claim C7 witness: the agreement conjunct applied to the rich-text
example. -/
theorem c7_si_concat_witness :
    (∀ e ∈ iterElems (XML.elem "si" none
      [XML.elem "r" none [XML.elem "t" (some "Bold") []],
       XML.elem "r" none [XML.elem "t" (some "Normal") []]]),
      (strEndsWith e.tag "t" = true ↔ localName e.tag = "t")) ∧
    siEntry (XML.elem "si" none
      [XML.elem "r" none [XML.elem "t" (some "Bold") []],
       XML.elem "r" none [XML.elem "t" (some "Normal") []]]) =
    siEntrySpec (XML.elem "si" none
      [XML.elem "r" none [XML.elem "t" (some "Bold") []],
       XML.elem "r" none [XML.elem "t" (some "Normal") []]]) :=
  ⟨by decide, c7_si_concat_amended.2 _ (by decide)⟩

/-- Helper: an alphabetic character has code point at least 65. -/
theorem alpha_toNat_ge (c : Char) (h : c.isAlpha = true) : 65 ≤ c.toNat := by
  simp [Char.isAlpha, Char.isUpper, Char.isLower] at h
  rcases h with ⟨h1, _⟩ | ⟨h1, _⟩
  · have h2 : (65 : UInt32).toNat ≤ c.val.toNat := h1
    simpa [Char.toNat] using h2
  · have h2 : (97 : UInt32).toNat ≤ c.val.toNat := h1
    have h3 : (65 : Nat) ≤ (97 : UInt32).toNat := by norm_num
    simpa [Char.toNat] using le_trans h3 h2

/-- Helper: the base-26 fold of address_to_index never decreases below a
nonnegative start when every folded character is alphabetic. -/
theorem addr_fold_lower (cs : List Char) :
    ∀ ix : Int, 0 ≤ ix → (∀ c ∈ cs, c.isAlpha = true) →
      ix ≤ cs.foldl (fun a c => a * 26 + ((c.toNat : Int) - 64)) ix := by
  induction cs with
  | nil => intro ix _ _; simp
  | cons c rest ih =>
      intro ix hix hall
      rw [List.foldl_cons]
      have hc : 65 ≤ c.toNat := alpha_toNat_ge c (hall c (List.mem_cons_self c rest))
      have hc2 : (65 : Int) ≤ (c.toNat : Int) := by exact_mod_cast hc
      have hstep : ix ≤ ix * 26 + ((c.toNat : Int) - 64) := by nlinarith
      have hnext : (0 : Int) ≤ ix * 26 + ((c.toNat : Int) - 64) := le_trans hix hstep
      exact le_trans hstep
        (ih (ix * 26 + ((c.toNat : Int) - 64)) hnext
          (fun x hx => hall x (List.mem_cons_of_mem c hx)))

/-- Claim C10, counterexample: the address 123, whose alphabetic prefix is
empty, yields the column index -1, and sparse-to-dense expansion of a row
whose only cell carries index -1 raises IndexError (the dense list is empty
and the Python assignment at index -1 is out of range); so computed column
indices are not always non-negative and expansion can raise. -/
theorem c10_address_index_counterexample :
    address_to_index "123" = -1 ∧
    sparse_to_dense_row [(-1, PyVal.str "v")] = none := by
  refine ⟨by decide, by decide⟩

/-- Claim C10 as amended: the computed column index is always at least -1,
and it is non-negative exactly when the address contains an alphabetic
character; an address with no alphabetic character yields -1, and a row
whose only cell carries index -1 makes sparse-to-dense expansion fail with
IndexError instead of never raising. -/
theorem c10_address_index_amended :
    (∀ addr : String, -1 ≤ address_to_index addr) ∧
    (∀ addr : String,
      ((addr.toList.map Char.toUpper).filter Char.isAlpha) ≠ [] →
      0 ≤ address_to_index addr) ∧
    address_to_index "123" = -1 ∧
    sparse_to_dense_row [(-1, PyVal.str "v")] = none := by
  refine ⟨?_, ?_, by decide, by decide⟩
  · intro addr
    unfold address_to_index
    dsimp only
    have h := addr_fold_lower ((addr.toList.map Char.toUpper).filter Char.isAlpha) 0
      le_rfl (fun c hc => (List.mem_filter.mp hc).2)
    omega
  · intro addr hne
    unfold address_to_index
    dsimp only
    cases hcp : ((addr.toList.map Char.toUpper).filter Char.isAlpha) with
    | nil => exact absurd hcp hne
    | cons c rest =>
        rw [List.foldl_cons]
        have hmemc : c ∈ (addr.toList.map Char.toUpper).filter Char.isAlpha := by
          rw [hcp]; exact List.mem_cons_self c rest
        have hc : 65 ≤ c.toNat := alpha_toNat_ge c (List.mem_filter.mp hmemc).2
        have hc2 : (65 : Int) ≤ (c.toNat : Int) := by exact_mod_cast hc
        have hrest : ∀ x ∈ rest, x.isAlpha = true := by
          intro x hx
          have : x ∈ (addr.toList.map Char.toUpper).filter Char.isAlpha := by
            rw [hcp]; exact List.mem_cons_of_mem c hx
          exact (List.mem_filter.mp this).2
        have hstart : (1 : Int) ≤ 0 * 26 + ((c.toNat : Int) - 64) := by omega
        have h := addr_fold_lower rest (0 * 26 + ((c.toNat : Int) - 64)) (by omega) hrest
        omega

/-- Claim C10 witness: the non-negativity conjunct of the amended claim
applied at the address A1. -/
theorem c10_address_index_witness :
    (((("A1" : String).toList.map Char.toUpper).filter Char.isAlpha) ≠ []) ∧
    0 ≤ address_to_index "A1" :=
  ⟨by decide, c10_address_index_amended.2.1 "A1" (by decide)⟩

/-- Helper: the fold of max is at least its start. -/
theorem foldl_max_init_le (l : List Int) : ∀ b : Int, b ≤ l.foldl max b := by
  induction l with
  | nil => intro b; simp
  | cons x l ih =>
      intro b
      rw [List.foldl_cons]
      exact le_trans (le_max_left b x) (ih (max b x))

/-- Helper: the fold of max dominates every member. -/
theorem foldl_max_mem_le (l : List Int) : ∀ (b x : Int), x ∈ l → x ≤ l.foldl max b := by
  induction l with
  | nil => intro _ _ hx; cases hx
  | cons y l ih =>
      intro b x hx
      rw [List.foldl_cons]
      rcases List.mem_cons.mp hx with rfl | hx2
      · exact le_trans (le_max_right b x) (foldl_max_init_le l (max b x))
      · exact ih (max b y) x hx2

/-- Helper: the fold of max is its start or one of the members. -/
theorem foldl_max_mem (l : List Int) : ∀ b : Int, l.foldl max b = b ∨ l.foldl max b ∈ l := by
  induction l with
  | nil => intro b; left; rfl
  | cons x l ih =>
      intro b
      rw [List.foldl_cons]
      rcases ih (max b x) with h | h
      · rw [h]
        rcases le_total b x with hbx | hxb
        · rw [max_eq_right hbx]
          right
          exact List.mem_cons_self x l
        · rw [max_eq_left hxb]
          left
          rfl
      · right
        exact List.mem_cons_of_mem x h

/-- Helper: a successful Python item assignment preserves the length. -/
theorem pySetItem_length (l : List PyVal) (i : Int) (v : PyVal) (l2 : List PyVal)
    (h : pySetItem l i v = some l2) : l2.length = l.length := by
  unfold pySetItem at h
  split at h
  · injection h with h2
    rw [← h2]
    simp
  · cases h

/-- Helper: a successful Python item assignment leaves every other position
unchanged. -/
theorem pySetItem_get_ne (l : List PyVal) (i : Int) (v : PyVal) (l2 : List PyVal)
    (h : pySetItem l i v = some l2) (p : Nat) (hp : (p : Int) ≠ pyIndex i l.length) :
    l2.get? p = l.get? p := by
  unfold pySetItem at h
  split at h
  · rename_i hc
    injection h with h2
    rw [← h2]
    have hne : (pyIndex i l.length).toNat ≠ p := by omega
    simp [List.get?_eq_getElem?, List.getElem?_set_ne hne]
  · cases h

/-- Helper: a successful fill preserves the length of the dense list. -/
theorem fillDense_length : ∀ (entries : List (Int × PyVal)) (l l2 : List PyVal),
    fillDense entries l = some l2 → l2.length = l.length := by
  intro entries
  induction entries with
  | nil =>
      intro l l2 h
      injection h with h2
      rw [h2]
  | cons kv rest ih =>
      intro l l2 h
      obtain ⟨k, v⟩ := kv
      unfold fillDense at h
      cases hset : pySetItem l k v with
      | none => rw [hset] at h; cases h
      | some lmid =>
          rw [hset] at h
          rw [ih lmid l2 h, pySetItem_length l k v lmid hset]

/-- Helper: a successful fill leaves every position untouched that no entry
targets. -/
theorem fillDense_get_untouched : ∀ (entries : List (Int × PyVal)) (l l2 : List PyVal),
    fillDense entries l = some l2 → ∀ p : Nat,
    (∀ kv ∈ entries, (p : Int) ≠ pyIndex kv.1 l.length) → l2.get? p = l.get? p := by
  intro entries
  induction entries with
  | nil =>
      intro l l2 h p _
      injection h with h2
      rw [h2]
  | cons kv rest ih =>
      intro l l2 h p hp
      obtain ⟨k, v⟩ := kv
      unfold fillDense at h
      cases hset : pySetItem l k v with
      | none => rw [hset] at h; cases h
      | some lmid =>
          rw [hset] at h
          have hlen : lmid.length = l.length := pySetItem_length l k v lmid hset
          have h1 : lmid.get? p = l.get? p :=
            pySetItem_get_ne l k v lmid hset p (hp (k, v) (List.mem_cons_self _ _))
          have h2 : l2.get? p = lmid.get? p := by
            apply ih lmid l2 h p
            intro kv2 hkv2
            rw [hlen]
            exact hp kv2 (List.mem_cons_of_mem _ hkv2)
          rw [h2, h1]

/-- Helper: positions inside a replicate read the replicated value. -/
theorem replicate_get_lt (n p : Nat) (a : PyVal) (h : p < n) :
    (List.replicate n a).get? p = some a := by
  simp [List.get?_eq_getElem?, List.getElem?_replicate, h]

/-- Claim C3: a row element with no cells emits nothing, and every emitted
dense row has length one more than the maximum computed column index among
the cells present (m below), with every unpopulated lower index holding the
Empty value.  The hypothesis that every key is at least -1 is exactly what
address_to_index guarantees. -/
theorem c3_densification :
    emitRow [] = some [] ∧
    ∀ (sparse : List (Int × PyVal)) (R : List PyVal),
      (∀ k ∈ sparse.map Prod.fst, -1 ≤ k) →
      emitRow sparse = some [R] →
      ∃ m : Int, 0 ≤ m ∧ m ∈ sparse.map Prod.fst ∧
        (∀ k ∈ sparse.map Prod.fst, k ≤ m) ∧
        (R.length : Int) = 1 + m ∧
        (∀ i : Nat, (i : Int) < m → (i : Int) ∉ sparse.map Prod.fst →
          R.get? i = some (PyVal.str "")) := by
  refine ⟨rfl, ?_⟩
  intro sparse R hkeys hemit
  cases sparse with
  | nil => simp [emitRow] at hemit
  | cons kv0 rest =>
    obtain ⟨k0, v0⟩ := kv0
    unfold emitRow at hemit
    rw [Option.map_eq_some'] at hemit
    obtain ⟨d, hd, hdr⟩ := hemit
    have hdR : d = R := by injection hdr with h1
    rw [hdR] at hd
    clear hdr hdR
    unfold sparse_to_dense_row at hd
    dsimp only at hd
    set M : Int := (rest.map Prod.fst).foldl max k0 with hMdef
    have hk0M : k0 ≤ M := foldl_max_init_le _ k0
    have hk0 : -1 ≤ k0 := hkeys k0 (by simp)
    have hMmem : M ∈ ((k0, v0) :: rest).map Prod.fst := by
      rw [List.map_cons]
      rcases foldl_max_mem (rest.map Prod.fst) k0 with h | h
      · rw [hMdef, h]
        exact List.mem_cons_self _ _
      · rw [hMdef]
        exact List.mem_cons_of_mem _ h
    have hbound : ∀ k ∈ ((k0, v0) :: rest).map Prod.fst, k ≤ M := by
      intro k hk
      rw [List.map_cons] at hk
      rcases List.mem_cons.mp hk with rfl | hk2
      · exact hk0M
      · exact foldl_max_mem_le _ k0 k hk2
    have hM0 : 0 ≤ M := by
      by_contra hlt
      have hMe : M = -1 := by
        have := hkeys M hMmem
        omega
      have hk0e : k0 = -1 := by omega
      rw [hMe] at hd
      have hz : List.replicate ((-1 : Int) + 1).toNat (PyVal.str "") = [] := rfl
      rw [hz, hk0e] at hd
      unfold fillDense at hd
      rw [show pySetItem [] (-1) v0 = none from rfl] at hd
      dsimp only at hd
      cases hd
    have hlenrep : (List.replicate (M + 1).toNat (PyVal.str "")).length = (M + 1).toNat :=
      List.length_replicate _ _
    have hRlen : R.length = (M + 1).toNat := by
      rw [fillDense_length _ _ _ hd, hlenrep]
    refine ⟨M, hM0, hMmem, hbound, ?_, ?_⟩
    · rw [hRlen]
      omega
    · intro i hiM hini
      have huntouched : R.get? i =
          (List.replicate (M + 1).toNat (PyVal.str "")).get? i := by
        apply fillDense_get_untouched _ _ _ hd i
        intro kv hkv
        have hkmem : kv.1 ∈ ((k0, v0) :: rest).map Prod.fst :=
          List.mem_map_of_mem Prod.fst hkv
        have hk1 : -1 ≤ kv.1 := hkeys kv.1 hkmem
        have hkM : kv.1 ≤ M := hbound kv.1 hkmem
        rw [hlenrep]
        unfold pyIndex
        by_cases hneg : kv.1 < 0
        · rw [if_pos hneg]
          omega
        · rw [if_neg hneg]
          intro hcontra
          exact hini (hcontra ▸ hkmem)
      rw [huntouched]
      apply replicate_get_lt
      omega

/-- Claim C3 witness: the emitted-row conjunct applied to the sparse row
with cells at columns 0 and 2. -/
theorem c3_densification_witness :
    (∀ k ∈ ([(0, PyVal.str "a"), (2, PyVal.int 5)] : List (Int × PyVal)).map Prod.fst,
      -1 ≤ k) ∧
    emitRow [(0, PyVal.str "a"), (2, PyVal.int 5)] =
      some [[PyVal.str "a", PyVal.str "", PyVal.int 5]] ∧
    ∃ m : Int, 0 ≤ m ∧
      m ∈ ([(0, PyVal.str "a"), (2, PyVal.int 5)] : List (Int × PyVal)).map Prod.fst ∧
      (∀ k ∈ ([(0, PyVal.str "a"), (2, PyVal.int 5)] : List (Int × PyVal)).map Prod.fst,
        k ≤ m) ∧
      (([PyVal.str "a", PyVal.str "", PyVal.int 5] : List PyVal).length : Int) = 1 + m ∧
      (∀ i : Nat, (i : Int) < m →
        (i : Int) ∉ ([(0, PyVal.str "a"), (2, PyVal.int 5)] : List (Int × PyVal)).map
          Prod.fst →
        ([PyVal.str "a", PyVal.str "", PyVal.int 5] : List PyVal).get? i =
          some (PyVal.str "")) :=
  ⟨by decide, by decide,
   c3_densification.2 [(0, PyVal.str "a"), (2, PyVal.int 5)]
     [PyVal.str "a", PyVal.str "", PyVal.int 5] (by decide) (by decide)⟩

end XlsxStreamer
